import Mathlib

/-!
Shallow embedding of the bazil volume metadata / sync core:
`src/db/volume.go` (volume creation) and `src/fs/fs.go` (epoch clock and
`SyncSend`).  Stateful Go code is modelled by explicit state passing;
database transactions and mutex operations additionally leave events in a
trace so that ordering claims can be stated.
-/

deriving instance DecidableEq for Except

namespace Bazil

/-! ### Events

Trace events emitted by the model: mutex acquisition/release, write
transaction boundaries (`db.Update`), the persisted tick advance, read
transaction boundaries (`db.View`), individual snapshot reads, and sink
invocations. -/

inductive Ev where
  | lock
  | beginUpdate
  | nextTick
  | endUpdate
  | beginView
  | unlock
  | read
  | send
  | endView
deriving DecidableEq, Repr

/-! ### Epoch clock (src/fs/fs.go lines 30-37, 110-150)

`EpochState` is the `epoch` struct of `Volume`: the in-memory tick cache
and the dirty flag.  We additionally carry the persisted tick (the value
stored in the database for this volume) so that the write path is
observable. -/

structure EpochState where
  ticks : Nat
  dirty : Bool
  persisted : Nat
deriving DecidableEq, Repr

/-- Modelled from the spec: `db.Volume.NextEpoch` is not under `src/`;
per the spec (§4.2) the seal path "advances the persisted tick by exactly
one" and returns the new value. -/
def NextEpoch (persisted : Nat) : Nat := persisted + 1

/-- `Volume.nextEpoch` (src/fs/fs.go lines 114-125): if not dirty, do
nothing; otherwise advance the persisted tick, cache it, clear dirty.
Returns the new state and the events of the persistence write. -/
def nextEpoch (s : EpochState) : EpochState × List Ev :=
  if !s.dirty then (s, [])
  else
    let n := NextEpoch s.persisted
    ({ ticks := n, dirty := false, persisted := n }, [.nextTick])

/-- `Volume.dirtyEpoch` (src/fs/fs.go lines 127-132): set dirty, return
the current (not yet advanced) ticks. -/
def dirtyEpoch (s : EpochState) : Nat × EpochState :=
  (s.ticks, { s with dirty := true })

/-- `Volume.cleanEpoch` (src/fs/fs.go lines 135-150): fast path when not
dirty; otherwise run `nextEpoch` inside a write transaction (`db.Update`)
and return the updated ticks.  Result: (returned tick, new state, events
of the call — empty exactly when no write transaction was opened). -/
def cleanEpoch (s : EpochState) : Nat × EpochState × List Ev :=
  if !s.dirty then (s.ticks, s, [])
  else
    let r := nextEpoch s
    (r.1.ticks, r.1, [Ev.beginUpdate] ++ r.2 ++ [Ev.endUpdate])

/-- `Open` (src/fs/fs.go lines 64-77) as far as the epoch clock is
concerned: `initFromDB` loads the persisted epoch into the cache and the
dirty flag is unconditionally set ("assume we crashed, to be safe"). -/
def openVolume (persistedEpoch : Nat) : EpochState :=
  { ticks := persistedEpoch, dirty := true, persisted := persistedEpoch }

/-- An external call into the epoch clock: a mutating filesystem
operation (`dirtyEpoch`) or an epoch seal (`cleanEpoch`). -/
inductive EpochOp where
  | markDirty
  | sealEpoch
deriving DecidableEq, Repr

/-- Run a sequence of epoch operations; collect the tick values returned
by the `sealEpoch` calls, in order. -/
def runEpochOps (s : EpochState) : List EpochOp → EpochState × List Nat
  | [] => (s, [])
  | .markDirty :: rest => runEpochOps (dirtyEpoch s).2 rest
  | .sealEpoch :: rest =>
      let c := cleanEpoch s
      let r := runEpochOps c.2.1 rest
      (r.1, c.1 :: r.2)

/-- The invariant established by `openVolume`: the cached ticks equal the
persisted tick. -/
def EpochInv (s : EpochState) : Prop := s.ticks = s.persisted

/-! ### Association lists

The bolt buckets and the Go peer map are modelled as association lists;
`assocGet` is the common lookup. -/

def assocGet {α β : Type} [DecidableEq α] : List (α × β) → α → Option β
  | [], _ => none
  | e :: rest, k => if e.1 = k then some e.2 else assocGet rest k

/-! ### Volume creation (src/db/volume.go) -/

inductive CreateErr where
  | volNameInvalid
  | volNameExist
  | outOfRandom
deriving DecidableEq, Repr

abbrev VolID := List Nat

/-- A per-volume bucket: the four created state sub-namespaces and the
content of the storage namespace (backend name, location, sharing key). -/
structure VolBucket where
  subBuckets : List String
  storage : List (String × String × List Nat)
deriving DecidableEq, Repr

/-- The two top-level buckets used by `Volumes`: name → volume ID, and
volume ID → per-volume bucket. -/
structure VolumesState where
  names : List (String × VolID)
  volumes : List (VolID × VolBucket)
deriving DecidableEq, Repr

/-- Modelled from the spec: `VolumeStorage.Add` is not under `src/`; per
the spec (§4.1) volume creation registers a "default" storage backend
with the given location and sharing key. -/
def storageAdd (bv : VolBucket) (backend loc : String) (sharingKey : List Nat) :
    VolBucket :=
  { bv with storage := bv.storage ++ [(backend, loc, sharingKey)] }

/-- The retry loop of `Volumes.Create` (src/db/volume.go lines 87-122):
draw IDs from `ids` (the successive outputs of `randomVolumeID`),
retrying while a bucket with that ID exists; then create the volume
bucket, register the name, create the four state sub-namespaces and add
the default storage backend.  The concrete list of draws replaces the
random source; an exhausted list is a modelling artifact reported as
`outOfRandom`. -/
def createLoop (st : VolumesState) (name loc : String) (sharingKey : List Nat) :
    List VolID → Except CreateErr VolID × VolumesState
  | [] => (.error .outOfRandom, st)
  | id :: rest =>
      if (assocGet st.volumes id).isSome then
        createLoop st name loc sharingKey rest
      else
        let bv := storageAdd
          { subBuckets := ["dir", "inode", "snap", "storage"], storage := [] }
          "default" loc sharingKey
        (.ok id,
          { names := st.names ++ [(name, id)],
            volumes := st.volumes ++ [(id, bv)] })

/-- `Volumes.Create` (src/db/volume.go lines 78-123): reject the empty
name (`ErrVolNameInvalid`) and an already-taken name (`ErrVolNameExist`)
before any mutation; otherwise run the creation loop.  The second
component is the store state after the call. -/
def Create (st : VolumesState) (name loc : String) (sharingKey : List Nat)
    (ids : List VolID) : Except CreateErr VolID × VolumesState :=
  if name = "" then (.error .volNameInvalid, st)
  else if (assocGet st.names name).isSome then (.error .volNameExist, st)
  else createLoop st name loc sharingKey ids

/-! ### Synchronization engine (src/fs/fs.go lines 152-297) -/

abbrev PubKey := List Nat

/-- A persisted dirent (`wire.Dirent` as `SyncSend` uses it): target
inode, and an optional file manifest or directory marker. -/
structure StoredDirent where
  inode : Nat
  file : Option (List Nat)
  dir : Option Unit
deriving DecidableEq, Repr

/-- `wirepeer.Dirent`: name, file-or-directory variant, serialized clock
bytes. -/
structure WireChild where
  name : String
  file : Option (List Nat)
  dir : Option Unit
  clock : List Nat
deriving DecidableEq, Repr

/-- `wirepeer.VolumeSyncPullItem`: the peer roster (`none` models a nil
Go map, the state after `Reset`), the child batch, and the error field
(`true` models `NOT_A_DIRECTORY`, the only error kind in scope). -/
structure Msg where
  peers : Option (List (Nat × PubKey))
  children : List WireChild
  err : Bool
deriving DecidableEq, Repr

/-- A known peer: ID, public key, and the result of the per-volume
authorization predicate `peer.Volumes().IsAllowed(bucket)` for the
volume being synced. -/
structure Peer where
  id : Nat
  pub : PubKey
  allowed : Bool
deriving DecidableEq, Repr

/-- The database state visible through one snapshot transaction, plus
the volume's identity: dirent lookup (`dirs.Get`), the listing cursor
(`dirs.List`, key order), the per-entry clock store (`clocks.Get`,
already serialized), the peer cursor (`tx.Peers()`, ID order) and the
local public key. -/
structure SyncEnv where
  rootInode : Nat
  dirs : Nat → String → Option StoredDirent
  listing : Nat → List (String × StoredDirent)
  clocks : Nat → String → Option (List Nat)
  peers : List Peer
  pubKey : PubKey

inductive SyncErr where
  | notFound
  | clockNotFound
  | unknownDirent
  | sinkFailed
deriving DecidableEq, Repr

/-- `splitPath` (src/fs/fs.go lines 152-158): split at the first slash;
without a slash the whole string is the head segment and the remainder
is empty. -/
def splitPath (p : List Char) : List Char × List Char :=
  match p.dropWhile (· ≠ '/') with
  | [] => (p, [])
  | _ :: tl => (p.takeWhile (· ≠ '/'), tl)

/-- The path-resolution loop of `SyncSend` (src/fs/fs.go lines 188-203),
written with an explicit fuel so that recursion is structural: starting
from the current inode, look up each segment and descend into the found
entry's inode — without inspecting whether it is a file or a directory;
a failed lookup is a hard error.  The zero-fuel/nonempty-path branch is
unreachable when the fuel is at least the path length (`resolve` below
always supplies enough, and `resolveGo_congr` proves fuel irrelevance
beyond that bound). -/
def resolveGo (env : SyncEnv) :
    Nat → Nat → Option StoredDirent → List Char →
      Except SyncErr (Nat × Option StoredDirent) × List Ev
  | _, dirInode, dirDE, [] => (.ok (dirInode, dirDE), [])
  | 0, _, _, _ :: _ => (.error .notFound, [])
  | fuel + 1, dirInode, dirDE, c :: cs =>
      match env.dirs dirInode (String.mk (splitPath (c :: cs)).1) with
      | none => (.error .notFound, [.read])
      | some de =>
          let r := resolveGo env fuel de.inode (some de) (splitPath (c :: cs)).2
          (r.1, .read :: r.2)

/-- The path-resolution loop (src/fs/fs.go lines 188-203): returns the
final inode and the final dirent (`none` when the walk was empty, i.e.
the target is the root). -/
def resolve (env : SyncEnv) (dirInode : Nat) (dirDE : Option StoredDirent)
    (p : List Char) : Except SyncErr (Nat × Option StoredDirent) × List Ev :=
  resolveGo env p.length dirInode dirDE p

/-- Insertion into the Go peer map (`msg.Peers[id] = pub`): overwrite an
existing key, otherwise add the binding. -/
def mapInsert (m : List (Nat × PubKey)) (k : Nat) (v : PubKey) :
    List (Nat × PubKey) :=
  if m.any (fun e => e.1 = k) then
    m.map (fun e => if e.1 = k then (k, v) else e)
  else m ++ [(k, v)]

/-- Roster construction (src/fs/fs.go lines 216-234): start from
`0 ↦ local public key`, iterate the peers in cursor (ID) order, and skip
any peer the volume's authorization predicate rejects. -/
def buildRoster (pub : PubKey) (peers : List Peer) : List (Nat × PubKey) :=
  peers.foldl
    (fun m p => if p.allowed then mapInsert m p.id p.pub else m)
    [(0, pub)]

/-- The per-entry conversion of the listing loop (src/fs/fs.go lines
249-258): file branch first, then directory, otherwise the "unknown
dirent type" error. -/
def childShape (name : String) (tmp : StoredDirent) : Except SyncErr WireChild :=
  match tmp.file, tmp.dir with
  | some m, _ => .ok { name := name, file := some m, dir := none, clock := [] }
  | none, some _ => .ok { name := name, file := none, dir := some (), clock := [] }
  | none, none => .error .unknownDirent

/-- One listed entry (src/fs/fs.go lines 238-275): unmarshal and convert
to the wire form, then fetch and serialize its clock. -/
def processChild (env : SyncEnv) (dirInode : Nat) (name : String)
    (tmp : StoredDirent) : Except SyncErr WireChild × List Ev :=
  match childShape name tmp with
  | .error e => (.error e, [])
  | .ok de =>
      match env.clocks dirInode name with
      | none => (.error .clockNotFound, [.read])
      | some cb => (.ok { de with clock := cb }, [.read])

/-- `maxBatch` (src/fs/fs.go line 237). -/
def maxBatch : Nat := 1000

/-- The child-streaming loop of `SyncSend` (src/fs/fs.go lines 236-289):
process each listed entry, append it to the current batch, flush through
the sink when the batch exceeds `maxBatch` entries (`Reset` clears the
roster, the children and the error field), and after the loop flush the
remainder when it has children or still carries the (non-nil) roster.
Returns the result, the messages passed to the sink in order, and the
trace of reads and sink calls. -/
def streamLoop (env : SyncEnv) (sink : Msg → Bool) (dirInode : Nat)
    (msg : Msg) : List (String × StoredDirent) →
      Except SyncErr Unit × List Msg × List Ev
  | [] =>
      if msg.children.length > 0 || msg.peers.isSome then
        if sink msg then (.ok (), [msg], [.send])
        else (.error .sinkFailed, [msg], [.send])
      else (.ok (), [], [])
  | (name, tmp) :: rest =>
      match processChild env dirInode name tmp with
      | (.error e, tr) => (.error e, [], Ev.read :: tr)
      | (.ok de, tr) =>
          let msg' := { msg with children := msg.children ++ [de] }
          if msg'.children.length > maxBatch then
            if sink msg' then
              let r := streamLoop env sink dirInode
                { peers := none, children := [], err := false } rest
              (r.1, msg' :: r.2.1, (Ev.read :: tr) ++ Ev.send :: r.2.2)
            else (.error .sinkFailed, [msg'], (Ev.read :: tr) ++ [Ev.send])
          else
            let r := streamLoop env sink dirInode msg' rest
            (r.1, r.2.1, (Ev.read :: tr) ++ r.2.2)

/-- The body of the `sync` closure apart from releasing the mutex
(src/fs/fs.go lines 184-291): resolve the path from the root inode; for
a non-root target that is not a directory, send the single
`NOT_A_DIRECTORY` message and finish successfully; otherwise build the
roster and stream the children of the resolved inode. -/
def syncInner (env : SyncEnv) (sink : Msg → Bool) (dirPath : List Char) :
    Except SyncErr Unit × List Msg × List Ev :=
  match resolve env env.rootInode none dirPath with
  | (.error e, tr) => (.error e, [], tr)
  | (.ok dst, tr) =>
      if (dst.2.map (fun de => de.dir.isNone)).getD false then
        let msg : Msg := { peers := none, children := [], err := true }
        if sink msg then (.ok (), [msg], tr ++ [.send])
        else (.error .sinkFailed, [msg], tr ++ [.send])
      else
        let msg0 : Msg :=
          { peers := some (buildRoster env.pubKey env.peers),
            children := [], err := false }
        let r := streamLoop env sink dst.1 msg0 (env.listing dst.1)
        (r.1, r.2.1, tr ++ r.2.2)

/-- The observable outcome of one `SyncSend` call: the returned error (if
any), the messages handed to the sink in order, the event trace, and the
epoch state after the call. -/
structure SyncOutcome where
  result : Except SyncErr Unit
  sends : List Msg
  trace : List Ev
  state : EpochState
deriving Repr

/-- `Volume.SyncSend` (src/fs/fs.go lines 160-297) for an already
normalized path (`path.Clean` is Go library code outside this
repository): take the epoch mutex, seal the epoch while holding it, open
the read-only snapshot transaction (`db.View`), and — as the first
statement inside the transaction — release the mutex, before the
snapshot reads and sink calls of `syncInner`. -/
def syncSend (st : EpochState) (env : SyncEnv) (sink : Msg → Bool)
    (dirPath : List Char) : SyncOutcome :=
  let c := cleanEpoch st
  let r := syncInner env sink dirPath
  { result := r.1
    sends := r.2.1
    trace := Ev.lock :: c.2.2 ++ Ev.beginView :: Ev.unlock :: r.2.2 ++ [Ev.endView]
    state := c.2.1 }

/-- Pair every event of a trace with whether the epoch mutex is held at
that event (for a lock or unlock event: the state it establishes). -/
def heldTrace : Bool → List Ev → List (Ev × Bool)
  | _, [] => []
  | held, e :: rest =>
      let h2 := match e with
        | .lock => true
        | .unlock => false
        | _ => held
      (e, h2) :: heldTrace h2 rest

/-! ### Concrete test fixtures used by witnesses and counterexamples -/

/-- A sink that always succeeds. -/
def sinkTrue : Msg → Bool := fun _ => true

/-- A stored file entry. -/
def fileEntry : StoredDirent := { inode := 2, file := some [7], dir := none }

/-- An environment whose root directory holds 2500 file children. -/
def env2500 : SyncEnv :=
  { rootInode := 1
    dirs := fun _ _ => none
    listing := fun i => if i = 1 then List.replicate 2500 ("", fileEntry) else []
    clocks := fun _ _ => some [3]
    peers := []
    pubKey := [9] }

/-- The wire form of every child of `env2500`. -/
def child2500 : WireChild := { name := "", file := some [7], dir := none, clock := [3] }

/-- An environment in which every dirent lookup misses. -/
def envEmpty : SyncEnv :=
  { rootInode := 1
    dirs := fun _ _ => none
    listing := fun _ => []
    clocks := fun _ _ => none
    peers := []
    pubKey := [9] }

/-- An environment whose root contains the single file `f`. -/
def envFile : SyncEnv :=
  { envEmpty with dirs := fun i s => if i = 1 ∧ s = "f" then some fileEntry else none }

/-- An environment used for the descent claim: `a` is a *file* at the
root whose inode 2 nevertheless has a child directory `b` (inode 7). -/
def envChain : SyncEnv :=
  { envEmpty with
    dirs := fun i s =>
      if i = 1 ∧ s = "a" then some fileEntry
      else if i = 2 ∧ s = "b" then some { inode := 7, file := none, dir := some () }
      else none
    clocks := fun _ _ => some [] }

/-- An environment with one authorized and one unauthorized peer. -/
def envPeers : SyncEnv :=
  { envEmpty with
    peers := [{ id := 1, pub := [11], allowed := true },
              { id := 2, pub := [22], allowed := false }] }

/-! ### Epoch clock lemmas -/

theorem cleanEpoch_state_eq (s : EpochState) :
    (cleanEpoch s).2.1 =
      if s.dirty then
        ⟨s.persisted + 1, false, s.persisted + 1⟩
      else s := by
  cases s with
  | mk t d p => cases d <;> simp [cleanEpoch, nextEpoch, NextEpoch]

theorem cleanEpoch_tick_eq (s : EpochState) :
    (cleanEpoch s).1 = if s.dirty then s.persisted + 1 else s.ticks := by
  cases s with
  | mk t d p => cases d <;> simp [cleanEpoch, nextEpoch, NextEpoch]

theorem cleanEpoch_events_eq (s : EpochState) :
    (cleanEpoch s).2.2 =
      if s.dirty then [Ev.beginUpdate, Ev.nextTick, Ev.endUpdate] else [] := by
  cases s with
  | mk t d p => cases d <;> simp [cleanEpoch, nextEpoch, NextEpoch]

theorem cleanEpoch_dirty_false (s : EpochState) :
    (cleanEpoch s).2.1.dirty = false := by
  rw [cleanEpoch_state_eq]
  cases h : s.dirty <;> simp [h]

theorem cleanEpoch_persisted_mono (s : EpochState) :
    s.persisted ≤ (cleanEpoch s).2.1.persisted := by
  rw [cleanEpoch_state_eq]
  cases h : s.dirty <;> simp [h]

theorem cleanEpoch_inv {s : EpochState} (h : EpochInv s) :
    EpochInv (cleanEpoch s).2.1 := by
  rw [EpochInv, cleanEpoch_state_eq]
  cases hd : s.dirty
  · simpa [hd] using h
  · simp [hd]

theorem cleanEpoch_tick_persisted {s : EpochState} (h : EpochInv s) :
    (cleanEpoch s).1 = (cleanEpoch s).2.1.persisted := by
  rw [cleanEpoch_tick_eq, cleanEpoch_state_eq]
  cases hd : s.dirty
  · simpa [hd] using h
  · simp [hd]

/-- Main inductive invariant for sequences of epoch operations: the
cache invariant is preserved, the persisted tick never decreases, every
returned tick lies between the initial and final persisted values, and
the returned ticks are pairwise nondecreasing. -/
theorem runEpochOps_spec (ops : List EpochOp) :
    ∀ s : EpochState, EpochInv s →
      EpochInv (runEpochOps s ops).1 ∧
      s.persisted ≤ (runEpochOps s ops).1.persisted ∧
      (∀ t ∈ (runEpochOps s ops).2,
        s.persisted ≤ t ∧ t ≤ (runEpochOps s ops).1.persisted) ∧
      List.Pairwise (· ≤ ·) (runEpochOps s ops).2 := by
  induction ops with
  | nil => intro s hs; simpa [runEpochOps] using hs
  | cons op rest ih =>
    intro s hs
    cases op with
    | markDirty =>
      have hs' : EpochInv (dirtyEpoch s).2 := hs
      have h := ih (dirtyEpoch s).2 hs'
      have hp : (dirtyEpoch s).2.persisted = s.persisted := rfl
      simpa [runEpochOps, hp] using h
    | sealEpoch =>
      have hs' : EpochInv (cleanEpoch s).2.1 := cleanEpoch_inv hs
      have h := ih (cleanEpoch s).2.1 hs'
      have hmono := cleanEpoch_persisted_mono s
      have htick := cleanEpoch_tick_persisted hs
      refine ⟨?_, ?_, ?_, ?_⟩
      · simpa [runEpochOps] using h.1
      · simp only [runEpochOps]
        exact le_trans hmono h.2.1
      · simp only [runEpochOps]
        intro t ht
        rcases List.mem_cons.mp ht with h1 | h2
        · subst h1
          refine ⟨?_, ?_⟩
          · rw [htick]; exact hmono
          · rw [htick]; exact h.2.1
        · have := h.2.2.1 t h2
          exact ⟨le_trans hmono this.1, this.2⟩
      · simp only [runEpochOps]
        refine List.pairwise_cons.mpr ⟨?_, h.2.2.2⟩
        intro t ht
        have := h.2.2.1 t ht
        rw [htick]
        exact this.1

/-! ### Claim C1 -/

/-- C1 counterexample: immediately after `Open` (which sets the dirty
flag), two consecutive `SealEpoch` (`cleanEpoch`) calls with no
intervening `MarkDirty` both return tick 1, so the sequence of returned
ticks `[1, 1]` is *not* strictly increasing, refuting the claim as
stated. -/
theorem sealEpoch_returns_repeat_tick_cx :
    (runEpochOps (openVolume 0) [.sealEpoch, .sealEpoch]).2 = [1, 1] ∧
    ¬ List.Chain' (· < ·) (runEpochOps (openVolume 0) [.sealEpoch, .sealEpoch]).2 := by
  have h : (runEpochOps (openVolume 0) [.sealEpoch, .sealEpoch]).2 = [1, 1] := by
    decide
  refine ⟨h, ?_⟩
  rw [h]
  simp [List.chain'_cons]

/-- C1 (amended): for every sequence of `MarkDirty`/`SealEpoch` calls on
a volume opened at persisted epoch `e`, the tick values returned by
`SealEpoch` are pairwise *nondecreasing* (consecutive seals without an
intervening `MarkDirty` repeat the same tick); the persisted tick never
decreases at any step (`cleanEpoch` and `dirtyEpoch` alike); and
`SealEpoch`'s write path is the only way the persisted tick advances:
`dirtyEpoch` leaves it unchanged, and `cleanEpoch` changes it — by
exactly one, inside a write transaction — exactly when the dirty flag
was set. -/
theorem sealEpoch_ticks_monotone (e : Nat) (ops : List EpochOp) :
    List.Pairwise (· ≤ ·) (runEpochOps (openVolume e) ops).2 ∧
    e ≤ (runEpochOps (openVolume e) ops).1.persisted ∧
    (∀ s : EpochState, s.persisted ≤ (cleanEpoch s).2.1.persisted) ∧
    (∀ s : EpochState, (dirtyEpoch s).2.persisted = s.persisted) ∧
    (∀ s : EpochState,
      (cleanEpoch s).2.1.persisted =
        if s.dirty then s.persisted + 1 else s.persisted) ∧
    (∀ s : EpochState,
      (cleanEpoch s).2.2 =
        if s.dirty then [Ev.beginUpdate, Ev.nextTick, Ev.endUpdate] else []) := by
  have hinv : EpochInv (openVolume e) := rfl
  have h := runEpochOps_spec ops (openVolume e) hinv
  refine ⟨h.2.2.2, h.2.1, cleanEpoch_persisted_mono, fun s => rfl, ?_, cleanEpoch_events_eq⟩
  intro s
  rw [cleanEpoch_state_eq]
  cases hd : s.dirty <;> simp [hd]

/-! ### Claim C6 -/

/-- C6: two consecutive `SealEpoch` (`cleanEpoch`) calls with no
intervening `MarkDirty` return the same tick, and the second call opens
no write transaction (its event list is empty) and leaves the state
unchanged. -/
theorem cleanEpoch_idempotent (s : EpochState) :
    (cleanEpoch (cleanEpoch s).2.1).1 = (cleanEpoch s).1 ∧
    (cleanEpoch (cleanEpoch s).2.1).2.2 = [] ∧
    (cleanEpoch (cleanEpoch s).2.1).2.1 = (cleanEpoch s).2.1 := by
  have hd := cleanEpoch_dirty_false s
  have h2 : cleanEpoch (cleanEpoch s).2.1 =
      ((cleanEpoch s).2.1.ticks, (cleanEpoch s).2.1, []) := by
    rw [cleanEpoch]
    simp [hd]
  refine ⟨?_, ?_, ?_⟩
  · rw [h2]
    rw [cleanEpoch_tick_eq, cleanEpoch_state_eq]
    cases hdd : s.dirty <;> simp [hdd]
  · rw [h2]
  · rw [h2]

/-! ### Claim C10 -/

/-- C10: `Open` initializes the dirty flag to `true` unconditionally, so
the first `SealEpoch` after `Open` opens a write transaction and
advances the persisted tick by exactly one — and hence the first
`SyncSend` after `Open` leaves the persisted tick at `e + 1`. -/
theorem open_first_seal_advances (e : Nat) :
    (openVolume e).dirty = true ∧
    cleanEpoch (openVolume e) =
      (e + 1, { ticks := e + 1, dirty := false, persisted := e + 1 },
        [Ev.beginUpdate, Ev.nextTick, Ev.endUpdate]) ∧
    (∀ env sink p, (syncSend (openVolume e) env sink p).state.persisted = e + 1) := by
  refine ⟨rfl, ?_, ?_⟩
  · simp [cleanEpoch, openVolume, nextEpoch, NextEpoch]
  · intro env sink p
    simp [syncSend, cleanEpoch, openVolume, nextEpoch, NextEpoch]

/-! ### Claim C7 -/

/-- C7: `Create` with an empty name fails with `ErrVolNameInvalid`, and
`Create` with a name already present in the name→ID mapping fails with
`ErrVolNameExist`; in both cases the store state is returned unchanged
(no mutation happens before the error return). -/
theorem create_guard_errors (st : VolumesState) (loc : String) (key : List Nat)
    (ids : List VolID) (name : String) (hne : name ≠ "")
    (htaken : (assocGet st.names name).isSome) :
    Create st "" loc key ids = (.error .volNameInvalid, st) ∧
    Create st name loc key ids = (.error .volNameExist, st) := by
  constructor
  · simp [Create]
  · simp [Create, hne, htaken]

/-- C7 witness: a concrete store in which the name `v` is taken. -/
theorem create_guard_errors_witness :
    (("v" : String) ≠ "") ∧
    ((assocGet (VolumesState.mk [("v", [1])] []).names "v").isSome) ∧
    (Create (VolumesState.mk [("v", [1])] []) "" "loc" [5] [[2]] =
      (.error .volNameInvalid, VolumesState.mk [("v", [1])] []) ∧
     Create (VolumesState.mk [("v", [1])] []) "v" "loc" [5] [[2]] =
      (.error .volNameExist, VolumesState.mk [("v", [1])] [])) :=
  ⟨by decide, by decide,
    create_guard_errors (VolumesState.mk [("v", [1])] []) "loc" [5] [[2]] "v"
      (by decide) (by decide)⟩

/-! ### Stream-loop lemmas -/

/-- Every message the child-streaming loop hands to the sink keeps the
error flag of the batch it started from (reset batches have it cleared),
carries either the starting batch's roster or none (after a reset), and
never exceeds `maxBatch + 1` children. -/
theorem streamLoop_sends_spec (env : SyncEnv) (sink : Msg → Bool) (dirInode : Nat) :
    ∀ (items : List (String × StoredDirent)) (msg : Msg),
      msg.children.length ≤ maxBatch →
      ∀ m ∈ (streamLoop env sink dirInode msg items).2.1,
        (m.err = msg.err ∨ m.err = false) ∧
        (m.peers = msg.peers ∨ m.peers = none) ∧
        m.children.length ≤ maxBatch + 1 := by
  intro items
  induction items with
  | nil =>
    intro msg hlen m hm
    simp only [streamLoop] at hm
    by_cases h1 : (msg.children.length > 0 || msg.peers.isSome) = true
    · rw [if_pos h1] at hm
      have hmm : m = msg := by
        by_cases h2 : sink msg = true
        · rw [if_pos h2] at hm; simpa using hm
        · rw [if_neg h2] at hm; simpa using hm
      subst hmm
      exact ⟨Or.inl rfl, Or.inl rfl, le_trans hlen (Nat.le_succ _)⟩
    · rw [if_neg h1] at hm
      simp at hm
  | cons it rest ih =>
    intro msg hlen m hm
    obtain ⟨name, tmp⟩ := it
    simp only [streamLoop] at hm
    rcases hpc : processChild env dirInode name tmp with ⟨res, tr⟩
    rw [hpc] at hm
    cases res with
    | error e => simp at hm
    | ok de =>
      simp only at hm
      by_cases hflush : ((msg.children ++ [de]).length > maxBatch)
      · rw [if_pos hflush] at hm
        by_cases h2 : sink { msg with children := msg.children ++ [de] } = true
        · rw [if_pos h2] at hm
          simp only [List.mem_cons] at hm
          rcases hm with hm | hm
          · subst hm
            refine ⟨Or.inl rfl, Or.inl rfl, ?_⟩
            simp only [List.length_append, List.length_cons, List.length_nil]
            omega
          · have := ih { peers := none, children := [], err := false }
              (by simp [maxBatch]) m hm
            exact ⟨Or.inr (by simpa using this.1.elim id id),
                   Or.inr (by simpa using this.2.1.elim id id),
                   this.2.2⟩
        · rw [if_neg h2] at hm
          simp only [List.mem_singleton] at hm
          subst hm
          refine ⟨Or.inl rfl, Or.inl rfl, ?_⟩
          simp only [List.length_append, List.length_cons, List.length_nil]
          omega
      · rw [if_neg hflush] at hm
        have hlen' : (msg.children ++ [de]).length ≤ maxBatch := by
          simp only [List.length_append, List.length_cons, List.length_nil] at hflush ⊢
          omega
        have := ih { msg with children := msg.children ++ [de] } hlen' m hm
        exact this

/-- Every message the streaming loop sends, except possibly the last
one, is a flushed batch of exactly `maxBatch + 1` children: a batch is
flushed exactly when appending an entry makes it exceed `maxBatch`. -/
theorem streamLoop_dropLast_spec (env : SyncEnv) (sink : Msg → Bool) (dirInode : Nat) :
    ∀ (items : List (String × StoredDirent)) (msg : Msg),
      msg.children.length ≤ maxBatch →
      ∀ m ∈ (streamLoop env sink dirInode msg items).2.1.dropLast,
        m.children.length = maxBatch + 1 := by
  intro items
  induction items with
  | nil =>
    intro msg hlen m hm
    simp only [streamLoop] at hm
    by_cases h1 : (msg.children.length > 0 || msg.peers.isSome) = true
    · rw [if_pos h1] at hm
      by_cases h2 : sink msg = true
      · rw [if_pos h2] at hm; simp at hm
      · rw [if_neg h2] at hm; simp at hm
    · rw [if_neg h1] at hm
      simp at hm
  | cons it rest ih =>
    intro msg hlen m hm
    obtain ⟨name, tmp⟩ := it
    simp only [streamLoop] at hm
    rcases hpc : processChild env dirInode name tmp with ⟨res, tr⟩
    rw [hpc] at hm
    cases res with
    | error e => simp at hm
    | ok de =>
      simp only at hm
      by_cases hflush : ((msg.children ++ [de]).length > maxBatch)
      · rw [if_pos hflush] at hm
        by_cases h2 : sink { msg with children := msg.children ++ [de] } = true
        · rw [if_pos h2] at hm
          have hfull : (msg.children ++ [de]).length = maxBatch + 1 := by
            simp only [List.length_append, List.length_cons, List.length_nil] at hflush ⊢
            omega
          rcases hrec : (streamLoop env sink dirInode
              { peers := none, children := [], err := false } rest).2.1 with _ | ⟨b, bs⟩
          · rw [hrec] at hm; simp at hm
          · rw [hrec] at hm
            rw [show ({ msg with children := msg.children ++ [de] } :: b :: bs).dropLast
                  = { msg with children := msg.children ++ [de] } :: (b :: bs).dropLast
                from rfl] at hm
            rcases List.mem_cons.mp hm with hm1 | hm2
            · subst hm1; exact hfull
            · have := ih { peers := none, children := [], err := false }
                (by simp [maxBatch])
              rw [hrec] at this
              exact this m hm2
        · rw [if_neg h2] at hm
          simp at hm
      · rw [if_neg hflush] at hm
        have hlen' : (msg.children ++ [de]).length ≤ maxBatch := by
          simp only [List.length_append, List.length_cons, List.length_nil] at hflush ⊢
          omega
        exact ih { msg with children := msg.children ++ [de] } hlen' m hm

/-- The events of the streaming loop are only snapshot reads and sink
invocations. -/
theorem streamLoop_events (env : SyncEnv) (sink : Msg → Bool) (dirInode : Nat) :
    ∀ (items : List (String × StoredDirent)) (msg : Msg),
      ∀ e ∈ (streamLoop env sink dirInode msg items).2.2,
        e = Ev.read ∨ e = Ev.send := by
  intro items
  induction items with
  | nil =>
    intro msg e he
    simp only [streamLoop] at he
    by_cases h1 : (msg.children.length > 0 || msg.peers.isSome) = true
    · rw [if_pos h1] at he
      by_cases h2 : sink msg = true
      · rw [if_pos h2] at he; simp at he; simp [he]
      · rw [if_neg h2] at he; simp at he; simp [he]
    · rw [if_neg h1] at he; simp at he
  | cons it rest ih =>
    intro msg e he
    obtain ⟨name, tmp⟩ := it
    simp only [streamLoop] at he
    rcases hpc : processChild env dirInode name tmp with ⟨res, tr⟩
    have htr : ∀ x ∈ tr, x = Ev.read := by
      intro x hx
      unfold processChild at hpc
      rcases hcs : childShape name tmp with _ | de2
      · rw [hcs] at hpc
        simp at hpc
        obtain ⟨h1, h2⟩ := hpc
        subst h2
        simp at hx
      · rw [hcs] at hpc
        simp only at hpc
        rcases hck : env.clocks dirInode name with _ | cb
        · rw [hck] at hpc
          simp at hpc
          obtain ⟨h1, h2⟩ := hpc
          subst h2
          simpa using hx
        · rw [hck] at hpc
          simp at hpc
          obtain ⟨h1, h2⟩ := hpc
          subst h2
          simpa using hx
    rw [hpc] at he
    cases res with
    | error e2 =>
      simp only [List.mem_cons] at he
      rcases he with he | he
      · exact Or.inl he
      · exact Or.inl (htr e he)
    | ok de =>
      simp only at he
      by_cases hflush : ((msg.children ++ [de]).length > maxBatch)
      · rw [if_pos hflush] at he
        by_cases h2 : sink { msg with children := msg.children ++ [de] } = true
        · rw [if_pos h2] at he
          simp only [List.cons_append, List.mem_cons, List.mem_append] at he
          rcases he with he | he
          · exact Or.inl he
          rcases he with he | he
          · exact Or.inl (htr e he)
          rcases he with he | he
          · exact Or.inr he
          · exact ih _ e he
        · rw [if_neg h2] at he
          simp only [List.cons_append, List.mem_cons, List.mem_append] at he
          rcases he with he | he
          · exact Or.inl he
          rcases he with he | he
          · exact Or.inl (htr e he)
          · exact Or.inr (by simpa using he)
      · rw [if_neg hflush] at he
        simp only [List.cons_append, List.mem_cons, List.mem_append] at he
        rcases he with he | he
        · exact Or.inl he
        rcases he with he | he
        · exact Or.inl (htr e he)
        · exact ih _ e he

/-! ### Resolution and trace lemmas -/

theorem splitPath_snd_lt (p : List Char) (hp : p ≠ []) :
    (splitPath p).2.length < p.length := by
  simp only [splitPath]
  split
  · simpa using List.length_pos.mpr hp
  · rename_i a tl heq
    show tl.length < p.length
    have h1 := (List.dropWhile_sublist (l := p) (p := (· ≠ '/'))).length_le
    rw [heq] at h1
    simp only [List.length_cons] at h1
    omega

/-- The fuel of `resolveGo` does not matter once it is at least the path
length. -/
theorem resolveGo_congr (env : SyncEnv) :
    ∀ (n : Nat) (p : List Char) (m : Nat), p.length ≤ n → p.length ≤ m →
      ∀ (dirInode : Nat) (dirDE : Option StoredDirent),
        resolveGo env n dirInode dirDE p = resolveGo env m dirInode dirDE p := by
  intro n
  induction n with
  | zero =>
    intro p m hn hm dirInode dirDE
    have hnil : p = [] := List.eq_nil_of_length_eq_zero (Nat.le_zero.mp hn)
    subst hnil
    cases m <;> rfl
  | succ n ih =>
    intro p m hn hm dirInode dirDE
    cases p with
    | nil => cases m <;> rfl
    | cons c cs =>
      cases m with
      | zero => simp at hm
      | succ m =>
        simp only [resolveGo]
        rcases hd : env.dirs dirInode (String.mk (splitPath (c :: cs)).1) with _ | de
        · rfl
        · have hlt := splitPath_snd_lt (c :: cs) (by simp)
          simp only [List.length_cons] at hn hm hlt
          have hrec := ih (splitPath (c :: cs)).2 m (by omega) (by omega) de.inode (some de)
          simp [hrec]

/-- Unfolding `resolve` on a nonempty path: one lookup, then the walk
continues from the found entry's inode. -/
theorem resolve_cons (env : SyncEnv) (dirInode : Nat)
    (dirDE : Option StoredDirent) (c : Char) (cs : List Char) :
    resolve env dirInode dirDE (c :: cs) =
      match env.dirs dirInode (String.mk (splitPath (c :: cs)).1) with
      | none => (.error .notFound, [.read])
      | some de =>
          ((resolve env de.inode (some de) (splitPath (c :: cs)).2).1,
            .read :: (resolve env de.inode (some de) (splitPath (c :: cs)).2).2) := by
  show resolveGo env (c :: cs).length dirInode dirDE (c :: cs) = _
  rcases hd : env.dirs dirInode (String.mk (splitPath (c :: cs)).1) with _ | de
  · simp only [List.length_cons, resolveGo, hd]
  · have hlt := splitPath_snd_lt (c :: cs) (by simp)
    simp only [List.length_cons] at hlt
    have hrec : resolveGo env cs.length de.inode (some de) (splitPath (c :: cs)).2 =
        resolve env de.inode (some de) (splitPath (c :: cs)).2 :=
      resolveGo_congr env cs.length (splitPath (c :: cs)).2
        (splitPath (c :: cs)).2.length (by omega) (le_refl _) de.inode (some de)
    simp only [List.length_cons, resolveGo, hd, hrec]

/-- Path resolution only reads the snapshot. -/
theorem resolve_events (env : SyncEnv) (dirInode : Nat)
    (dirDE : Option StoredDirent) (p : List Char) :
    ∀ e ∈ (resolve env dirInode dirDE p).2, e = Ev.read := by
  rw [resolve]
  generalize p.length = fuel
  induction fuel generalizing dirInode dirDE p with
  | zero => intro e he; cases p <;> simp [resolveGo] at he
  | succ n ih =>
    intro e he
    cases p with
    | nil => simp [resolveGo] at he
    | cons c cs =>
      simp only [resolveGo] at he
      rcases hd : env.dirs dirInode (String.mk (splitPath (c :: cs)).1) with _ | de
      · rw [hd] at he; simpa using he
      · rw [hd] at he
        simp only [List.mem_cons] at he
        rcases he with he | he
        · exact he
        · exact ih de.inode (some de) _ e he

/-- The inner sync body only reads the snapshot and calls the sink. -/
theorem syncInner_events (env : SyncEnv) (sink : Msg → Bool) (p : List Char) :
    ∀ e ∈ (syncInner env sink p).2.2, e = Ev.read ∨ e = Ev.send := by
  intro e he
  unfold syncInner at he
  rcases hres : resolve env env.rootInode none p with ⟨res, tr⟩
  rw [hres] at he
  have htr : ∀ x ∈ tr, x = Ev.read := by
    intro x hx
    have h := resolve_events env env.rootInode none p x
    rw [hres] at h
    exact h hx
  cases res with
  | error e2 =>
    simp only at he
    exact Or.inl (htr e he)
  | ok dst =>
    simp only at he
    by_cases hcond : ((dst.2.map (fun de => de.dir.isNone)).getD false) = true
    · rw [if_pos hcond] at he
      by_cases h2 : sink { peers := none, children := [], err := true } = true
      · rw [if_pos h2] at he
        simp only at he
        rcases List.mem_append.mp he with he | he
        · exact Or.inl (htr e he)
        · exact Or.inr (by simpa using he)
      · rw [if_neg h2] at he
        simp only at he
        rcases List.mem_append.mp he with he | he
        · exact Or.inl (htr e he)
        · exact Or.inr (by simpa using he)
    · rw [if_neg hcond] at he
      simp only at he
      rcases List.mem_append.mp he with he | he
      · exact Or.inl (htr e he)
      · exact streamLoop_events env sink dst.1 (env.listing dst.1) _ e he

/-- Once the mutex is released, a trace without lock events keeps it
released. -/
theorem heldTrace_false_of_no_lock :
    ∀ (evs : List Ev), (∀ e ∈ evs, e ≠ Ev.lock) →
      ∀ pr ∈ heldTrace false evs, pr.2 = false := by
  intro evs
  induction evs with
  | nil => intro _ pr hpr; simp [heldTrace] at hpr
  | cons e rest ih =>
    intro hno pr hpr
    have hrest : ∀ x ∈ rest, x ≠ Ev.lock :=
      fun x hx => hno x (List.mem_cons_of_mem _ hx)
    cases e
    case lock => exact absurd rfl (hno Ev.lock (by simp))
    all_goals
      simp only [heldTrace, List.mem_cons] at hpr
      rcases hpr with hpr | hpr
      · rw [hpr]
      · exact ih hrest pr hpr

/-- Every traced mutex state is attached to an event of the trace. -/
theorem heldTrace_fst_mem :
    ∀ (evs : List Ev) (b : Bool) (pr : Ev × Bool),
      pr ∈ heldTrace b evs → pr.1 ∈ evs := by
  intro evs
  induction evs with
  | nil => intro b pr hpr; simp [heldTrace] at hpr
  | cons e rest ih =>
    intro b pr hpr
    simp only [heldTrace, List.mem_cons] at hpr
    rcases hpr with hpr | hpr
    · rw [hpr]; simp
    · exact List.mem_cons_of_mem _ (ih _ pr hpr)

/-! ### Claim C3 -/

/-- C3 counterexample: in a concrete run of `SyncSend`, the read-only
snapshot transaction is opened (`beginView`) *before* the mutex is
released (`unlock`), and the mutex is held at the moment the view is
opened — refuting the claim that the mutex is released before the
snapshot is opened. -/
theorem syncSend_mutex_held_at_view_open_cx :
    (syncSend (openVolume 0) envEmpty sinkTrue ['a']).trace =
      [Ev.lock, Ev.beginUpdate, Ev.nextTick, Ev.endUpdate,
       Ev.beginView, Ev.unlock, Ev.read, Ev.endView] ∧
    (Ev.beginView, true) ∈
      heldTrace false (syncSend (openVolume 0) envEmpty sinkTrue ['a']).trace := by
  decide

/-- C3 (amended): in every execution of `SyncSend`, the epoch mutex is
released *inside* the read-only snapshot transaction — after the tick is
sealed and after the transaction is opened, but before any snapshot read
or sink call (the remaining events are exactly reads and sink calls).
Consequently the mutex is never held while the snapshot is read or the
sink runs, the persisted tick advance always happens under the mutex,
but the view is opened while the mutex is still held. -/
theorem syncSend_unlock_inside_view (st : EpochState) (env : SyncEnv)
    (sink : Msg → Bool) (p : List Char) :
    (∃ innerEvs,
      (syncSend st env sink p).trace =
        Ev.lock :: (cleanEpoch st).2.2 ++
          Ev.beginView :: Ev.unlock :: innerEvs ++ [Ev.endView] ∧
      ∀ e ∈ innerEvs, e = Ev.read ∨ e = Ev.send) ∧
    (Ev.read, true) ∉ heldTrace false (syncSend st env sink p).trace ∧
    (Ev.send, true) ∉ heldTrace false (syncSend st env sink p).trace ∧
    (Ev.nextTick, false) ∉ heldTrace false (syncSend st env sink p).trace ∧
    (Ev.beginView, true) ∈ heldTrace false (syncSend st env sink p).trace := by
  have htr : (syncSend st env sink p).trace =
      Ev.lock :: (cleanEpoch st).2.2 ++ Ev.beginView :: Ev.unlock ::
        (syncInner env sink p).2.2 ++ [Ev.endView] := rfl
  have hnolock : ∀ e ∈ (syncInner env sink p).2.2 ++ [Ev.endView], e ≠ Ev.lock := by
    intro e he
    rcases List.mem_append.mp he with he | he
    · rcases syncInner_events env sink p e he with h | h <;> simp [h]
    · simp at he; simp [he]
  have hsuffix := heldTrace_false_of_no_lock _ hnolock
  have hsufev : ∀ pr ∈ heldTrace false ((syncInner env sink p).2.2 ++ [Ev.endView]),
      pr.1 ≠ Ev.nextTick := by
    intro pr hpr
    have h1 := heldTrace_fst_mem _ _ _ hpr
    rcases List.mem_append.mp h1 with h | h
    · rcases syncInner_events env sink p _ h with h2 | h2 <;> simp [h2]
    · simp at h; simp [h]
  refine ⟨⟨(syncInner env sink p).2.2, htr, syncInner_events env sink p⟩, ?_⟩
  cases hd : st.dirty
  · have hup : (cleanEpoch st).2.2 = [] := by
      rw [cleanEpoch_events_eq, hd]; simp
    have hcalc : heldTrace false (syncSend st env sink p).trace =
        (Ev.lock, true) :: (Ev.beginView, true) :: (Ev.unlock, false) ::
          heldTrace false ((syncInner env sink p).2.2 ++ [Ev.endView]) := by
      rw [htr, hup]
      rfl
    rw [hcalc]
    refine ⟨?_, ?_, ?_, by simp⟩
    · intro hmem
      have h2 : (Ev.read, true) ∈
          heldTrace false ((syncInner env sink p).2.2 ++ [Ev.endView]) := by
        simpa using hmem
      have := hsuffix _ h2
      simp at this
    · intro hmem
      have h2 : (Ev.send, true) ∈
          heldTrace false ((syncInner env sink p).2.2 ++ [Ev.endView]) := by
        simpa using hmem
      have := hsuffix _ h2
      simp at this
    · intro hmem
      have h2 : (Ev.nextTick, false) ∈
          heldTrace false ((syncInner env sink p).2.2 ++ [Ev.endView]) := by
        simpa using hmem
      have := hsufev _ h2
      simp at this
  · have hup : (cleanEpoch st).2.2 = [Ev.beginUpdate, Ev.nextTick, Ev.endUpdate] := by
      rw [cleanEpoch_events_eq, hd]; simp
    have hcalc : heldTrace false (syncSend st env sink p).trace =
        (Ev.lock, true) :: (Ev.beginUpdate, true) :: (Ev.nextTick, true) ::
          (Ev.endUpdate, true) :: (Ev.beginView, true) :: (Ev.unlock, false) ::
          heldTrace false ((syncInner env sink p).2.2 ++ [Ev.endView]) := by
      rw [htr, hup]
      rfl
    rw [hcalc]
    refine ⟨?_, ?_, ?_, by simp⟩
    · intro hmem
      have h2 : (Ev.read, true) ∈
          heldTrace false ((syncInner env sink p).2.2 ++ [Ev.endView]) := by
        simpa using hmem
      have := hsuffix _ h2
      simp at this
    · intro hmem
      have h2 : (Ev.send, true) ∈
          heldTrace false ((syncInner env sink p).2.2 ++ [Ev.endView]) := by
        simpa using hmem
      have := hsuffix _ h2
      simp at this
    · intro hmem
      have h2 : (Ev.nextTick, false) ∈
          heldTrace false ((syncInner env sink p).2.2 ++ [Ev.endView]) := by
        simpa using hmem
      have := hsufev _ h2
      simp at this

/-! ### Claim C4 -/

/-- C4: when the path resolves (non-root) to an entry that is not a
directory, `SyncSend` hands the sink exactly one message — error field
`NOT_A_DIRECTORY`, no children, no roster — and returns success. -/
theorem syncSend_not_a_directory (st : EpochState) (env : SyncEnv)
    (sink : Msg → Bool) (p : List Char) (i : Nat) (de : StoredDirent)
    (hres : (resolve env env.rootInode none p).1 = .ok (i, some de))
    (hnd : de.dir = none)
    (hsink : sink { peers := none, children := [], err := true } = true) :
    (syncSend st env sink p).sends =
      [{ peers := none, children := [], err := true }] ∧
    (syncSend st env sink p).result = .ok () := by
  have hre : resolve env env.rootInode none p =
      (.ok (i, some de), (resolve env env.rootInode none p).2) := by
    rw [← hres]
  have hmain : syncInner env sink p =
      (.ok (), [{ peers := none, children := [], err := true }],
        (resolve env env.rootInode none p).2 ++ [Ev.send]) := by
    unfold syncInner
    rw [hre]
    simp [hnd, hsink]
  constructor
  · show (syncInner env sink p).2.1 = _
    rw [hmain]
  · show (syncInner env sink p).1 = _
    rw [hmain]

/-- C4 witness: a concrete volume whose root has the file `f`; syncing
the path `f` yields the single `NOT_A_DIRECTORY` message and success. -/
theorem syncSend_not_a_directory_witness :
    ((resolve envFile envFile.rootInode none ['f']).1 =
      .ok (2, some fileEntry)) ∧
    fileEntry.dir = none ∧
    sinkTrue { peers := none, children := [], err := true } = true ∧
    ((syncSend (openVolume 0) envFile sinkTrue ['f']).sends =
        [{ peers := none, children := [], err := true }] ∧
      (syncSend (openVolume 0) envFile sinkTrue ['f']).result = .ok ()) :=
  ⟨by decide, by decide, rfl,
    syncSend_not_a_directory (openVolume 0) envFile sinkTrue ['f'] 2 fileEntry
      (by decide) (by decide) rfl⟩

/-! ### Claim C5 -/

/-- C5: if path resolution fails (a segment misses in the directory
namespace), `SyncSend` returns the lookup's not-found error as a hard
error and the sink is invoked zero times. -/
theorem syncSend_unresolved_segment (st : EpochState) (env : SyncEnv)
    (sink : Msg → Bool) (p : List Char)
    (hres : (resolve env env.rootInode none p).1 = .error .notFound) :
    (syncSend st env sink p).result = .error .notFound ∧
    (syncSend st env sink p).sends = [] := by
  have hre : resolve env env.rootInode none p =
      (.error .notFound, (resolve env env.rootInode none p).2) := by
    rw [← hres]
  have hmain : syncInner env sink p =
      (.error .notFound, [], (resolve env env.rootInode none p).2) := by
    unfold syncInner
    rw [hre]
  constructor
  · show (syncInner env sink p).1 = _
    rw [hmain]
  · show (syncInner env sink p).2.1 = _
    rw [hmain]

/-- C5 witness: in an environment where every lookup misses, syncing
`a/b` fails hard with the not-found error and sends nothing. -/
theorem syncSend_unresolved_segment_witness :
    ((resolve envEmpty envEmpty.rootInode none ['a', '/', 'b']).1 =
      .error .notFound) ∧
    ((syncSend (openVolume 0) envEmpty sinkTrue ['a', '/', 'b']).result =
        .error .notFound ∧
      (syncSend (openVolume 0) envEmpty sinkTrue ['a', '/', 'b']).sends = []) :=
  ⟨by decide,
    syncSend_unresolved_segment (openVolume 0) envEmpty sinkTrue
      ['a', '/', 'b'] (by decide)⟩

/-! ### splitPath lemmas -/

theorem splitPath_cons_ne (c : Char) (t : List Char) (hc : c ≠ '/') :
    splitPath (c :: t) = (c :: (splitPath t).1, (splitPath t).2) := by
  have hcb : (fun x => decide (x ≠ '/')) c = true := by simp [hc]
  simp only [splitPath, List.dropWhile_cons, List.takeWhile_cons, hcb, if_true]
  rcases hdw : t.dropWhile (fun x => decide (x ≠ '/')) with _ | ⟨a, tl⟩ <;>
    rfl

theorem splitPath_append (s1 s2 : List Char) (h : '/' ∉ s1) :
    splitPath (s1 ++ '/' :: s2) = (s1, s2) := by
  induction s1 with
  | nil => rfl
  | cons c cs ih =>
    have hc : c ≠ '/' := by intro hh; exact h (by simp [hh])
    have hcs : '/' ∉ cs := by intro hh; exact h (List.mem_cons_of_mem _ hh)
    rw [List.cons_append, splitPath_cons_ne c (cs ++ '/' :: s2) hc, ih hcs]

/-! ### Claim C9 -/

/-- C9: path resolution descends through a found intermediate entry even
when that entry is a file (`dir = none`): the walk continues from its
inode exactly as for a directory; and only the *final* resolved entry's
type is checked — whenever the final entry is a directory, no
`NOT_A_DIRECTORY` message is ever emitted, whatever the intermediate
entries were. -/
theorem syncSend_descend_through_file (env : SyncEnv) (s1 s2 : List Char)
    (de : StoredDirent) (hslash : '/' ∉ s1)
    (hde : env.dirs env.rootInode (String.mk s1) = some de)
    (hfile : de.dir = none) :
    (resolve env env.rootInode none (s1 ++ '/' :: s2)).1 =
      (resolve env de.inode (some de) s2).1 ∧
    (∀ st sink p i de2,
      (resolve env env.rootInode none p).1 = .ok (i, some de2) →
      de2.dir.isSome → ∀ m ∈ (syncSend st env sink p).sends, m.err = false) := by
  have hsp := splitPath_append s1 s2 hslash
  constructor
  · rcases hq : s1 ++ '/' :: s2 with _ | ⟨c, cs⟩
    · exact absurd hq (by simp)
    · rw [hq] at hsp
      rw [resolve_cons]
      simp [hsp, hde]
  · intro st sink p i de2 hres hdir m hm
    have hre : resolve env env.rootInode none p =
        (.ok (i, some de2), (resolve env env.rootInode none p).2) := by
      rw [← hres]
    obtain ⟨u, hu⟩ := Option.isSome_iff_exists.mp hdir
    have hmain : (syncSend st env sink p).sends =
        (streamLoop env sink i
          { peers := some (buildRoster env.pubKey env.peers),
            children := [], err := false }
          (env.listing i)).2.1 := by
      show (syncInner env sink p).2.1 = _
      unfold syncInner
      rw [hre]
      simp [hu]
    rw [hmain] at hm
    have h := streamLoop_sends_spec env sink i (env.listing i)
      { peers := some (buildRoster env.pubKey env.peers),
        children := [], err := false }
      (by simp [maxBatch]) m hm
    rcases h.1 with h1 | h1
    · exact h1
    · exact h1

/-- C9 witness: in `envChain` the root entry `a` is a file whose inode
still has the child directory `b`; resolving `a/b` walks through the
file and the final-type check alone decides the error message. -/
theorem syncSend_descend_through_file_witness :
    ('/' ∉ ['a']) ∧
    envChain.dirs envChain.rootInode (String.mk ['a']) = some fileEntry ∧
    fileEntry.dir = none ∧
    ((resolve envChain envChain.rootInode none (['a'] ++ '/' :: ['b'])).1 =
        (resolve envChain fileEntry.inode (some fileEntry) ['b']).1 ∧
      (∀ st sink p i de2,
        (resolve envChain envChain.rootInode none p).1 = .ok (i, some de2) →
        de2.dir.isSome →
          ∀ m ∈ (syncSend st envChain sink p).sends, m.err = false)) :=
  ⟨by decide, by decide, by decide,
    syncSend_descend_through_file envChain ['a'] ['b'] fileEntry
      (by decide) (by decide) (by decide)⟩

/-! ### Roster lemmas -/

theorem assocGet_map_overwrite (k j : Nat) (v : PubKey) (hkj : j ≠ k) :
    ∀ m : List (Nat × PubKey),
      assocGet (m.map (fun e => if e.1 = k then (k, v) else e)) j =
        assocGet m j := by
  intro m
  induction m with
  | nil => rfl
  | cons e rest ih =>
    by_cases he : e.1 = k
    · simp only [List.map_cons, if_pos he]
      simp only [assocGet]
      rw [if_neg (fun hh => hkj hh.symm),
        if_neg (by rw [he]; exact fun hh => hkj hh.symm)]
      exact ih
    · simp only [List.map_cons, if_neg he]
      simp only [assocGet]
      by_cases hej : e.1 = j
      · rw [if_pos hej, if_pos hej]
      · rw [if_neg hej, if_neg hej]; exact ih

theorem assocGet_append_ne (m : List (Nat × PubKey)) (k j : Nat) (v : PubKey)
    (hkj : j ≠ k) : assocGet (m ++ [(k, v)]) j = assocGet m j := by
  induction m with
  | nil =>
    simp only [List.nil_append, assocGet]
    rw [if_neg (fun hh => hkj hh.symm)]
  | cons e rest ih =>
    simp only [List.cons_append, assocGet]
    by_cases hej : e.1 = j
    · rw [if_pos hej, if_pos hej]
    · rw [if_neg hej, if_neg hej]; exact ih

theorem assocGet_mapInsert_ne (m : List (Nat × PubKey)) (k j : Nat) (v : PubKey)
    (hkj : j ≠ k) : assocGet (mapInsert m k v) j = assocGet m j := by
  unfold mapInsert
  by_cases hany : (m.any (fun e => e.1 = k)) = true
  · rw [if_pos hany]; exact assocGet_map_overwrite k j v hkj m
  · rw [if_neg hany]; exact assocGet_append_ne m k j v hkj

theorem assocGet_none_not_mem (k : Nat) :
    ∀ (m : List (Nat × PubKey)), assocGet m k = none → ∀ v, (k, v) ∉ m := by
  intro m
  induction m with
  | nil => intro _ v; simp
  | cons e rest ih =>
    intro h v hv
    simp only [assocGet] at h
    by_cases he : e.1 = k
    · rw [if_pos he] at h; simp at h
    · rw [if_neg he] at h
      rcases List.mem_cons.mp hv with hv | hv
      · exact he (by rw [← hv])
      · exact ih h v hv

/-- The local key under peer ID 0 survives roster construction as long
as no stored peer claims ID 0. -/
theorem buildRoster_self (pub : PubKey) :
    ∀ (peers : List Peer), (∀ q ∈ peers, q.id ≠ 0) →
      ∀ (acc : List (Nat × PubKey)), assocGet acc 0 = some pub →
        assocGet
          (peers.foldl
            (fun m p => if p.allowed then mapInsert m p.id p.pub else m) acc)
          0 = some pub := by
  intro peers
  induction peers with
  | nil => intro _ acc hacc; simpa using hacc
  | cons q rest ih =>
    intro hq acc hacc
    have hq0 : q.id ≠ 0 := hq q (by simp)
    have hrest : ∀ x ∈ rest, x.id ≠ 0 :=
      fun x hx => hq x (List.mem_cons_of_mem _ hx)
    simp only [List.foldl_cons]
    apply ih hrest
    by_cases ha : q.allowed = true
    · rw [if_pos ha,
        assocGet_mapInsert_ne acc q.id 0 q.pub (fun hh => hq0 hh.symm)]
      exact hacc
    · rw [if_neg ha]; exact hacc

/-- Any key present in the built roster either was in the initial
accumulator or belongs to an authorized peer. -/
theorem buildRoster_keys (k : Nat) :
    ∀ (peers : List Peer) (acc : List (Nat × PubKey)),
      assocGet
        (peers.foldl
          (fun m p => if p.allowed then mapInsert m p.id p.pub else m) acc)
        k ≠ none →
      assocGet acc k ≠ none ∨ ∃ q ∈ peers, q.allowed = true ∧ q.id = k := by
  intro peers
  induction peers with
  | nil => intro acc h; exact Or.inl (by simpa using h)
  | cons q rest ih =>
    intro acc h
    simp only [List.foldl_cons] at h
    rcases ih _ h with h1 | h1
    · by_cases ha : q.allowed = true
      · by_cases hk : q.id = k
        · exact Or.inr ⟨q, by simp, ha, hk⟩
        · rw [if_pos ha,
            assocGet_mapInsert_ne acc q.id k q.pub (fun hh => hk hh.symm)] at h1
          exact Or.inl h1
      · rw [if_neg ha] at h1
        exact Or.inl h1
    · obtain ⟨q2, hq2, h3⟩ := h1
      exact Or.inr ⟨q2, List.mem_cons_of_mem _ hq2, h3⟩

/-! ### Claim C8 -/

/-- C8: every roster carried by a `SyncSend` message maps peer ID 0 to
the local public key, and a peer the volume's authorization predicate
rejects appears under its ID in no roster at all (assuming, per the
spec, that stored peers never claim the reserved ID 0 and have pairwise
distinct IDs). -/
theorem syncSend_roster_authorization (st : EpochState) (env : SyncEnv)
    (sink : Msg → Bool) (p : List Char)
    (hid0 : ∀ q ∈ env.peers, q.id ≠ 0)
    (hdist : env.peers.Pairwise (fun a b => a.id ≠ b.id)) :
    (∀ m ∈ (syncSend st env sink p).sends, ∀ r, m.peers = some r →
      assocGet r 0 = some env.pubKey) ∧
    (∀ q ∈ env.peers, q.allowed = false →
      ∀ m ∈ (syncSend st env sink p).sends, ∀ r, m.peers = some r →
        assocGet r q.id = none) := by
  have hpeers : ∀ m ∈ (syncSend st env sink p).sends,
      m.peers = none ∨ m.peers = some (buildRoster env.pubKey env.peers) := by
    intro m hm
    have hm2 : m ∈ (syncInner env sink p).2.1 := hm
    unfold syncInner at hm2
    rcases hres : resolve env env.rootInode none p with ⟨res, tr⟩
    rw [hres] at hm2
    cases res with
    | error e2 => simp at hm2
    | ok dst =>
      simp only at hm2
      by_cases hcond : ((dst.2.map (fun d => d.dir.isNone)).getD false) = true
      · rw [if_pos hcond] at hm2
        by_cases h2 : sink { peers := none, children := [], err := true } = true
        · rw [if_pos h2] at hm2
          simp only [List.mem_singleton] at hm2
          subst hm2
          exact Or.inl rfl
        · rw [if_neg h2] at hm2
          simp only [List.mem_singleton] at hm2
          subst hm2
          exact Or.inl rfl
      · rw [if_neg hcond] at hm2
        have h := streamLoop_sends_spec env sink dst.1 (env.listing dst.1)
          { peers := some (buildRoster env.pubKey env.peers),
            children := [], err := false }
          (by simp [maxBatch]) m hm2
        rcases h.2.1 with h1 | h1
        · exact Or.inr h1
        · exact Or.inl h1
  have hself : assocGet (buildRoster env.pubKey env.peers) 0 = some env.pubKey := by
    unfold buildRoster
    exact buildRoster_self env.pubKey env.peers hid0 [(0, env.pubKey)]
      (by simp [assocGet])
  have hkey : ∀ q ∈ env.peers, q.allowed = false →
      assocGet (buildRoster env.pubKey env.peers) q.id = none := by
    intro q hq hqa
    by_contra hne
    unfold buildRoster at hne
    rcases buildRoster_keys q.id env.peers [(0, env.pubKey)] hne with h1 | h1
    · have hqz : q.id = 0 := by
        by_contra h0
        apply h1
        simp only [assocGet]
        rw [if_neg (fun hh => h0 hh.symm)]
      exact hid0 q hq hqz
    · obtain ⟨q2, hq2, hq2a, hq2id⟩ := h1
      have hneq : q2 ≠ q := by
        intro hh
        rw [hh, hqa] at hq2a
        cases hq2a
      have hsym : Symmetric (fun a b : Peer => a.id ≠ b.id) :=
        fun a b h hh => h hh.symm
      exact (hdist.forall hsym) hq2 hq hneq hq2id
  refine ⟨?_, ?_⟩
  · intro m hm r hr
    rcases hpeers m hm with h | h
    · rw [hr] at h; cases h
    · rw [hr] at h
      rw [Option.some.injEq] at h
      rw [h]
      exact hself
  · intro q hq hqa m hm r hr
    rcases hpeers m hm with h | h
    · rw [hr] at h; cases h
    · rw [hr] at h
      rw [Option.some.injEq] at h
      rw [h]
      exact hkey q hq hqa

/-- C8 witness: a store with one authorized peer (ID 1) and one
unauthorized peer (ID 2). -/
theorem syncSend_roster_authorization_witness :
    (∀ q ∈ envPeers.peers, q.id ≠ 0) ∧
    envPeers.peers.Pairwise (fun a b => a.id ≠ b.id) ∧
    ((∀ m ∈ (syncSend (openVolume 0) envPeers sinkTrue []).sends,
        ∀ r, m.peers = some r → assocGet r 0 = some envPeers.pubKey) ∧
      (∀ q ∈ envPeers.peers, q.allowed = false →
        ∀ m ∈ (syncSend (openVolume 0) envPeers sinkTrue []).sends,
          ∀ r, m.peers = some r → assocGet r q.id = none)) :=
  ⟨by decide, by decide,
    syncSend_roster_authorization (openVolume 0) envPeers sinkTrue []
      (by decide) (by decide)⟩

/-! ### Batch-size bounds for whole sync runs -/

/-- In any `SyncSend` run, no message carries more than `maxBatch + 1`
children, and every message except possibly the last carries exactly
`maxBatch + 1` (mid-stream flushes happen exactly when a batch first
exceeds `maxBatch`). -/
theorem syncSend_batch_bounds (st : EpochState) (env : SyncEnv)
    (sink : Msg → Bool) (p : List Char) :
    (∀ m ∈ (syncSend st env sink p).sends, m.children.length ≤ maxBatch + 1) ∧
    (∀ m ∈ (syncSend st env sink p).sends.dropLast,
      m.children.length = maxBatch + 1) := by
  have hsends : (syncSend st env sink p).sends = (syncInner env sink p).2.1 := rfl
  rw [hsends]
  unfold syncInner
  rcases hres : resolve env env.rootInode none p with ⟨res, tr⟩
  cases res with
  | error e2 =>
    constructor <;> intro m hm <;> simp at hm
  | ok dst =>
    simp only
    by_cases hcond : ((dst.2.map (fun d => d.dir.isNone)).getD false) = true
    · rw [if_pos hcond]
      by_cases h2 : sink { peers := none, children := [], err := true } = true
      · rw [if_pos h2]
        constructor
        · intro m hm
          simp only [List.mem_singleton] at hm
          subst hm
          simp [maxBatch]
        · intro m hm
          simp at hm
      · rw [if_neg h2]
        constructor
        · intro m hm
          simp only [List.mem_singleton] at hm
          subst hm
          simp [maxBatch]
        · intro m hm
          simp at hm
    · rw [if_neg hcond]
      constructor
      · intro m hm
        exact (streamLoop_sends_spec env sink dst.1 (env.listing dst.1)
          { peers := some (buildRoster env.pubKey env.peers),
            children := [], err := false }
          (by simp [maxBatch]) m hm).2.2
      · intro m hm
        exact streamLoop_dropLast_spec env sink dst.1 (env.listing dst.1)
          { peers := some (buildRoster env.pubKey env.peers),
            children := [], err := false }
          (by simp [maxBatch]) m hm

/-- When the sink always succeeds and every listed entry converts
without error, the concatenation of the children across all flushed
batches is the batch prefix followed by the converted listing, in listing
order. -/
theorem streamLoop_join (env : SyncEnv) (sink : Msg → Bool) (dirInode : Nat)
    (hsink : ∀ m, sink m = true) :
    ∀ (items : List (String × StoredDirent)) (msg : Msg),
      (∀ it ∈ items, ∀ e, (processChild env dirInode it.1 it.2).1 ≠ .error e) →
      (((streamLoop env sink dirInode msg items).2.1.map
          (fun m => m.children)).flatten =
        msg.children ++
          items.filterMap
            (fun it => ((processChild env dirInode it.1 it.2).1).toOption)) := by
  intro items
  induction items with
  | nil =>
    intro msg hok
    simp only [streamLoop]
    by_cases h1 : (msg.children.length > 0 || msg.peers.isSome) = true
    · rw [if_pos h1, if_pos (hsink msg)]
      simp
    · rw [if_neg h1]
      simp only [Bool.or_eq_true, not_or] at h1
      have : msg.children.length = 0 := by
        rcases Nat.eq_zero_or_pos msg.children.length with h | h
        · exact h
        · exact absurd (by simpa using h) h1.1
      simp [List.eq_nil_of_length_eq_zero this]
  | cons it rest ih =>
    intro msg hok
    obtain ⟨name, tmp⟩ := it
    have hokh := hok (name, tmp) (by simp)
    have hokr : ∀ it2 ∈ rest, ∀ e, (processChild env dirInode it2.1 it2.2).1 ≠ .error e :=
      fun it2 h2 => hok it2 (List.mem_cons_of_mem _ h2)
    simp only [streamLoop]
    rcases hpc : processChild env dirInode name tmp with ⟨res, tr⟩
    cases res with
    | error e2 =>
      exact absurd (by rw [hpc]) (hokh e2)
    | ok de =>
      simp only
      have hto : ((processChild env dirInode (name, tmp).1 (name, tmp).2).1).toOption
          = some de := by rw [hpc]; rfl
      by_cases hflush : ((msg.children ++ [de]).length > maxBatch)
      · rw [if_pos hflush, if_pos (hsink _)]
        simp only [List.map_cons, List.flatten_cons]
        rw [ih { peers := none, children := [], err := false } hokr]
        simp [List.filterMap_cons, hto]
      · rw [if_neg hflush]
        rw [ih { msg with children := msg.children ++ [de] } hokr]
        simp [List.filterMap_cons, hto]

/-- `SyncSend` on the root path streams the root directory's listing
from the roster-carrying initial batch. -/
theorem syncSend_sends_root (st : EpochState) (env : SyncEnv) (sink : Msg → Bool) :
    (syncSend st env sink []).sends =
      (streamLoop env sink env.rootInode
        { peers := some (buildRoster env.pubKey env.peers),
          children := [], err := false }
        (env.listing env.rootInode)).2.1 := rfl

/-! ### Claim C2 -/

set_option maxRecDepth 100000 in
/-- C2 counterexample: for the 2500-child directory the three messages
carry 1001, 1001 and 498 children — not the claimed 1000, 1000 and
500 — because the code flushes only once a batch *exceeds* 1000
entries. -/
theorem syncSend_batch_sizes_cx :
    (syncSend (openVolume 0) env2500 sinkTrue []).sends.map
        (fun m => m.children.length) = [1001, 1001, 498] ∧
    (syncSend (openVolume 0) env2500 sinkTrue []).sends.map
        (fun m => m.children.length) ≠ [1000, 1000, 500] := by
  constructor
  · decide
  · decide

set_option maxRecDepth 100000 in
/-- C2 (amended): for a directory with 2500 children, `SyncSend` invokes
the sink exactly 3 times, delivering two full 1001-entry batches and one
498-entry remainder, and the concatenation of children across all
invocations equals the full child set in stable (key) order; in general
a batch is flushed when it exceeds the fixed threshold of 1000 entries,
so every message except possibly the last carries exactly 1001 entries
and none carries more. -/
theorem syncSend_batches_2500 :
    ((syncSend (openVolume 0) env2500 sinkTrue []).sends.map
        (fun m => m.children.length) = [1001, 1001, 498]) ∧
    ((syncSend (openVolume 0) env2500 sinkTrue []).sends.length = 3) ∧
    (((syncSend (openVolume 0) env2500 sinkTrue []).sends.map
        (fun m => m.children)).flatten = List.replicate 2500 child2500) ∧
    (∀ st env sink p, ∀ m ∈ (syncSend st env sink p).sends,
      m.children.length ≤ maxBatch + 1) ∧
    (∀ st env sink p, ∀ m ∈ (syncSend st env sink p).sends.dropLast,
      m.children.length = maxBatch + 1) := by
  have hok : ∀ it ∈ List.replicate 2500 (("", fileEntry) : String × StoredDirent),
      ∀ e, (processChild env2500 1 it.1 it.2).1 ≠ .error e := by
    intro it hit e h
    rw [List.eq_of_mem_replicate hit] at h
    have hv : (processChild env2500 1 (("", fileEntry) : String × StoredDirent).1
        (("", fileEntry) : String × StoredDirent).2).1 = .ok child2500 := rfl
    rw [hv] at h
    exact Except.noConfusion h
  have hfm : ∀ n : Nat,
      List.filterMap
        (fun it : String × StoredDirent =>
          ((processChild env2500 1 it.1 it.2).1).toOption)
        (List.replicate n ("", fileEntry)) = List.replicate n child2500 := by
    intro n
    induction n with
    | zero => rfl
    | succ k ih =>
      rw [List.replicate_succ, List.filterMap_cons]
      have hv : ((processChild env2500 1 (("", fileEntry) : String × StoredDirent).1
          (("", fileEntry) : String × StoredDirent).2).1).toOption
          = some child2500 := rfl
      rw [hv, ih, List.replicate_succ]
  refine ⟨by decide, by decide, ?_, ?_, ?_⟩
  · rw [syncSend_sends_root (openVolume 0) env2500 sinkTrue]
    rw [show env2500.rootInode = 1 from rfl]
    rw [show env2500.listing 1 = List.replicate 2500 ("", fileEntry) from rfl]
    have happ := streamLoop_join env2500 sinkTrue 1 (fun _ => rfl)
      (List.replicate 2500 ("", fileEntry))
      { peers := some (buildRoster env2500.pubKey env2500.peers),
        children := [], err := false } hok
    rw [happ]
    exact hfm 2500
  · intro st env sink p
    exact (syncSend_batch_bounds st env sink p).1
  · intro st env sink p
    exact (syncSend_batch_bounds st env sink p).2

end Bazil
